import Mathlib

/-!
Shallow embedding of `assetman/compile.py`: the manifest builder, version
hasher, manifest normalizer, staleness check and build orchestration of the
Assetman asset pipeline, together with the MD5 digest they rely on.

File contents are modelled as strings of byte-valued characters; the
filesystem is an explicit record of existing files (with contents) and
existing directories.  Python's mutation of the manifest dictionaries is
modelled by explicit state passing over association lists, and the
unbounded recursion of the resolver and hasher is modelled with a fuel
parameter (`none` = the recursion did not terminate within the fuel).
-/

set_option maxRecDepth 100000
set_option maxHeartbeats 2000000

namespace Assetman

/-! ### MD5 (RFC 1321), the digest behind `hashlib.md5` used by
`get_file_hash` and `version_dependency`.  Machine words are `Nat`s taken
modulo `2 ^ 32`. -/

def U32 : Nat := 4294967296

def not32 (a : Nat) : Nat := 4294967295 - a % U32

def rotl32 (a s : Nat) : Nat :=
  ((a % U32) * 2 ^ s) % U32 + (a % U32) / 2 ^ (32 - s)

def md5K : List Nat :=
  [0xd76aa478, 0xe8c7b756, 0x242070db, 0xc1bdceee,
   0xf57c0faf, 0x4787c62a, 0xa8304613, 0xfd469501,
   0x698098d8, 0x8b44f7af, 0xffff5bb1, 0x895cd7be,
   0x6b901122, 0xfd987193, 0xa679438e, 0x49b40821,
   0xf61e2562, 0xc040b340, 0x265e5a51, 0xe9b6c7aa,
   0xd62f105d, 0x02441453, 0xd8a1e681, 0xe7d3fbc8,
   0x21e1cde6, 0xc33707d6, 0xf4d50d87, 0x455a14ed,
   0xa9e3e905, 0xfcefa3f8, 0x676f02d9, 0x8d2a4c8a,
   0xfffa3942, 0x8771f681, 0x6d9d6122, 0xfde5380c,
   0xa4beea44, 0x4bdecfa9, 0xf6bb4b60, 0xbebfbc70,
   0x289b7ec6, 0xeaa127fa, 0xd4ef3085, 0x04881d05,
   0xd9d4d039, 0xe6db99e5, 0x1fa27cf8, 0xc4ac5665,
   0xf4292244, 0x432aff97, 0xab9423a7, 0xfc93a039,
   0x655b59c3, 0x8f0ccc92, 0xffeff47d, 0x85845dd1,
   0x6fa87e4f, 0xfe2ce6e0, 0xa3014314, 0x4e0811a1,
   0xf7537e82, 0xbd3af235, 0x2ad7d2bb, 0xeb86d391]

def md5S : List Nat :=
  [7, 12, 17, 22, 7, 12, 17, 22, 7, 12, 17, 22, 7, 12, 17, 22,
   5, 9, 14, 20, 5, 9, 14, 20, 5, 9, 14, 20, 5, 9, 14, 20,
   4, 11, 16, 23, 4, 11, 16, 23, 4, 11, 16, 23, 4, 11, 16, 23,
   6, 10, 15, 21, 6, 10, 15, 21, 6, 10, 15, 21, 6, 10, 15, 21]

def md5F (i b c d : Nat) : Nat :=
  if i < 16 then (b &&& c) ||| (not32 b &&& d)
  else if i < 32 then (d &&& b) ||| (not32 d &&& c)
  else if i < 48 then b ^^^ c ^^^ d
  else c ^^^ (b ||| not32 d)

def md5G (i : Nat) : Nat :=
  if i < 16 then i
  else if i < 32 then (5 * i + 1) % 16
  else if i < 48 then (3 * i + 5) % 16
  else (7 * i) % 16

def md5Round (M : List Nat) (st : Nat × Nat × Nat × Nat) (i : Nat) :
    Nat × Nat × Nat × Nat :=
  match st with
  | (a, b, c, d) =>
    let f := (md5F i b c d + a + md5K.getD i 0 + M.getD (md5G i) 0) % U32
    (d, (b + rotl32 f (md5S.getD i 0)) % U32, b, c)

def md5Block (h : Nat × Nat × Nat × Nat) (M : List Nat) :
    Nat × Nat × Nat × Nat :=
  match h, (List.range 64).foldl (md5Round M) h with
  | (h0, h1, h2, h3), (a, b, c, d) =>
    ((h0 + a) % U32, (h1 + b) % U32, (h2 + c) % U32, (h3 + d) % U32)

def toWords32 : List Nat → List Nat
  | b0 :: b1 :: b2 :: b3 :: rest =>
      (b0 + 256 * b1 + 65536 * b2 + 16777216 * b3) :: toWords32 rest
  | _ => []

def chunks16 : List Nat → List (List Nat)
  | w0 :: w1 :: w2 :: w3 :: w4 :: w5 :: w6 :: w7 ::
    w8 :: w9 :: w10 :: w11 :: w12 :: w13 :: w14 :: w15 :: rest =>
      [w0, w1, w2, w3, w4, w5, w6, w7,
       w8, w9, w10, w11, w12, w13, w14, w15] :: chunks16 rest
  | _ => []

def le8 (n : Nat) : List Nat :=
  [n % 256, n / 256 % 256, n / 65536 % 256, n / 16777216 % 256,
   n / 4294967296 % 256, n / 1099511627776 % 256,
   n / 281474976710656 % 256, n / 72057594037927936 % 256]

def md5Pad (msg : List Nat) : List Nat :=
  let len := msg.length
  let zeros := (119 - len % 64) % 64
  msg ++ [128] ++ List.replicate zeros 0 ++ le8 ((len * 8) % 2 ^ 64)

def md5Init : Nat × Nat × Nat × Nat :=
  (0x67452301, 0xefcdab89, 0x98badcfe, 0x10325476)

def hexDigit (n : Nat) : Char :=
  if n < 10 then Char.ofNat (48 + n) else Char.ofNat (87 + n % 16)

def byteHexChars (b : Nat) : List Char :=
  [hexDigit (b / 16 % 16), hexDigit (b % 16)]

def wordHexLE (w : Nat) : List Char :=
  byteHexChars (w % 256) ++ byteHexChars (w / 256 % 256) ++
  byteHexChars (w / 65536 % 256) ++ byteHexChars (w / 16777216 % 256)

def md5HexBytes (msg : List Nat) : String :=
  match (chunks16 (toWords32 (md5Pad msg))).foldl md5Block md5Init with
  | (h0, h1, h2, h3) =>
    String.mk (wordHexLE h0 ++ wordHexLE h1 ++ wordHexLE h2 ++ wordHexLE h3)

def strBytes (s : String) : List Nat := s.data.map Char.toNat

/-- `hashlib.md5(s).hexdigest()` for a byte string `s` (ASCII contents). -/
def md5_hex (s : String) : String := md5HexBytes (strBytes s)

/-! ### Filesystem model

`files` maps an existing file path to its contents; `dirs` lists the
existing directories.  `os.path.isfile` / `os.path.isdir` / `open(p).read()`
become lookups into this record. -/

structure FS where
  files : List (String × String)
  dirs : List String
deriving Repr, DecidableEq

def FS.isfile (fs : FS) (p : String) : Bool := (fs.files.lookup p).isSome

def FS.read (fs : FS) (p : String) : String := (fs.files.lookup p).getD ""

def FS.isdir (fs : FS) (p : String) : Bool := fs.dirs.contains p

/-- `get_file_hash(path)`: the MD5 hex digest of the file's bytes.  The
source reads the file in 8192-byte chunks and feeds each chunk to the same
incremental MD5 state, which digests exactly the concatenation of the
chunks, i.e. the whole contents. -/
def get_file_hash (fs : FS) (path : String) : String := md5_hex (fs.read path)

/-! ### Python `os.path` helpers (posixpath semantics)

String primitives are implemented on the character list so that every
definition evaluates by plain reduction. -/

/-- Python `str.startswith(pre)`. -/
def pyStartsWith (s pre : String) : Bool := pre.data.isPrefixOf s.data

/-- Python `str.endswith(suf)`. -/
def pyEndsWith (s suf : String) : Bool :=
  suf.data.reverse.isPrefixOf s.data.reverse

def splitOnCharAux (c : Char) : List Char → List Char → List String
  | [], acc => [String.mk acc.reverse]
  | x :: xs, acc =>
    if x = c then String.mk acc.reverse :: splitOnCharAux c xs []
    else splitOnCharAux c xs (x :: acc)

/-- Python `str.split(c)` for a one-character separator, keeping empty
fields. -/
def splitOnChar (c : Char) (s : String) : List String := splitOnCharAux c s.data []

/-- Python `'/'.join(parts)`. -/
def joinWithSlash : List String → String
  | [] => ""
  | [s] => s
  | s :: rest => s ++ "/" ++ joinWithSlash rest

/-- `os.path.basename`: everything after the last slash. -/
def basenameStr (p : String) : String :=
  String.mk ((p.data.reverse.takeWhile (fun c => c ≠ '/')).reverse)

/-- `os.path.dirname`: everything before the last slash, with trailing
slashes stripped unless the head is all slashes. -/
def dirnameStr (p : String) : String :=
  let cs := p.data
  let base := (cs.reverse.takeWhile (fun c => c ≠ '/')).reverse
  let head := cs.take (cs.length - base.length)
  if head = [] then ""
  else if head.all (fun c => c = '/') then String.mk head
  else String.mk ((head.reverse.dropWhile (fun c => c = '/')).reverse)

/-- `os.path.join(a, b)` for two components. -/
def joinPath (a b : String) : String :=
  if pyStartsWith b ("/") then b
  else if a = "" ∨ pyEndsWith a ("/") then a ++ b
  else a ++ "/" ++ b

/-- `os.path.splitext(p)[1]`: the final extension (with its dot) of the
basename, empty when the basename has no dot or only leading dots. -/
def splitext_ext (p : String) : String :=
  let base := (p.data.reverse.takeWhile (fun c => c ≠ '/')).reverse
  if base.contains '.' then
    let extRev := base.reverse.takeWhile (fun c => c ≠ '.')
    let stem := base.take (base.length - extRev.length - 1)
    if stem.any (fun c => c ≠ '.') then String.mk ('.' :: extRev.reverse)
    else ""
  else ""

/-- `os.path.normpath` (posixpath): collapse `.`/`..`/empty components,
preserving the leading-slash count (`//` is kept distinct from `/`). -/
def normpath (p : String) : String :=
  if p = "" then "."
  else
    let initialSlashes : Nat :=
      if pyStartsWith p ("//") ∧ ¬ pyStartsWith p ("///") then 2
      else if pyStartsWith p ("/") then 1 else 0
    let comps := splitOnChar '/' p
    let newComps := comps.foldl
      (fun (acc : List String) comp =>
        if comp = "" ∨ comp = "." then acc
        else if comp ≠ ".." ∨ (initialSlashes = 0 ∧ acc = []) ∨
                (acc ≠ [] ∧ acc.getLast? = some "..") then acc ++ [comp]
        else if acc ≠ [] then acc.dropLast
        else acc) []
    let path := joinWithSlash newComps
    let path := String.mk (List.replicate initialSlashes '/') ++ path
    if path = "" then "." else path

/-- Python `str.strip(chars)`: drop every leading and trailing character
belonging to `set`. -/
def stripChars (cs : List Char) (set : List Char) : List Char :=
  ((cs.dropWhile (fun c => set.contains c)).reverse.dropWhile
    (fun c => set.contains c)).reverse

def squote : Char := Char.ofNat 39
def dquote : Char := Char.ofNat 34
def nlChar : Char := Char.ofNat 10

/-- The character set of Python's `quotes = '\x27\x22'` literal in
`iter_template_deps`. -/
def pyQuotes : List Char := [squote, dquote]

/-! ### Manifest data model

A manifest is the pair of dictionaries built by `build_manifest`:
`assets` maps a path to its entry and `blocks` maps a block name hash to
its version record.  Python dictionaries become association lists, and
the `deps` set becomes the list of its elements in iteration order
(insertion order in this model); `set.add` appends when absent. -/

structure AssetEntry where
  version : Option String
  versioned_path : Option String
  deps : List String
deriving Repr, DecidableEq

/-- `empty_asset_entry()`. -/
def empty_asset_entry : AssetEntry :=
  { version := none, versioned_path := none, deps := [] }

structure BlockEntry where
  version : Option String
  versioned_path : Option String
deriving Repr, DecidableEq

structure ManifestB where
  assets : List (String × AssetEntry)
  blocks : List (String × BlockEntry)
deriving Repr, DecidableEq

/-- `Manifest(settings).make_empty_manifest()`.  Modelled from the spec:
`assetman.manifest` is not under `src/`; the spec describes the manifest
as the aggregate of an `assets` mapping and a `blocks` mapping, both
initially empty. -/
def make_empty_manifest : ManifestB := { assets := [], blocks := [] }

/-- Dictionary update `d[k] = v`: replace in place, or append a new key. -/
def assocSet {α : Type} : List (String × α) → String → α → List (String × α)
  | [], k, v => [(k, v)]
  | (k1, v1) :: rest, k, v =>
    if k1 = k then (k, v) :: rest else (k1, v1) :: assocSet rest k v

/-- Python truthiness of a `version` field: `None` and `""` are falsy. -/
def truthyS : Option String → Bool
  | none => false
  | some s => ¬ s.isEmpty

/-! ### Dependency extraction errors

The exceptions dependency extraction can raise: `ParseError(src, msg)`
from `iter_template_deps`, `AssertionError` from the `assert` statements,
`IndexError` from `arg[0]` on an empty argument, and the `TypeError`
Python raises when `iter_deps` calls the two-parameter
`iter_template_deps` with three arguments. -/

inductive BuildErr
  | parseError (src_path msg : String)
  | typeError (msg : String)
  | assertionError (info : String)
  | indexError
deriving Repr, DecidableEq

/-! ### The `assetman.static_url` finder

`static_url_call_finder` is `re.compile(r'assetman\.static_url\((.*?)(,.*?)?\)').finditer`:
at each occurrence of the literal `assetman.static_url(`, group 1 is the
lazy run of non-newline characters up to the first `,` or `)`, and the
optional group 2 runs from that `,` lazily to the first `)`.  A position
where no `)` is reachable without crossing a newline does not match, and
scanning resumes one character later; matches are non-overlapping. -/

def staticUrlLit : List Char := "assetman.static_url(".data

/-- Scan group 1: characters up to the first `,` (second component `true`)
or `)` (`false`); fails at a newline or the end of input. -/
def scanG1 : List Char → Option (List Char × Bool × List Char)
  | [] => none
  | c :: rest =>
    if c = ')' then some ([], false, rest)
    else if c = ',' then some ([], true, rest)
    else if c = nlChar then none
    else (scanG1 rest).map (fun r => (c :: r.1, r.2.1, r.2.2))

/-- Scan group 2 after the comma: characters lazily up to the first `)`. -/
def scanG2 : List Char → Option (List Char × List Char)
  | [] => none
  | c :: rest =>
    if c = ')' then some ([], rest)
    else if c = nlChar then none
    else (scanG2 rest).map (fun r => (c :: r.1, r.2))

/-- The part after `assetman.static_url(`: returns
(group 1, text of groups 1-2, rest after the closing paren). -/
def scanArg (cs : List Char) : Option (List Char × List Char × List Char) :=
  match scanG1 cs with
  | none => none
  | some (g1, false, rest) => some (g1, g1, rest)
  | some (g1, true, rest) =>
    match scanG2 rest with
    | none => none
    | some (g2, rest1) => some (g1, g1 ++ ',' :: g2, rest1)

/-- All matches of `static_url_call_finder`, as (group 1, group 0) pairs.
The fuel is the length of the input. -/
def findCalls : Nat → List Char → List (String × String)
  | 0, _ => []
  | _ + 1, [] => []
  | fuel + 1, c :: rest =>
    if staticUrlLit.isPrefixOf (c :: rest) then
      match scanArg ((c :: rest).drop 20) with
      | some (g1, mid, rest1) =>
        (String.mk g1, "assetman.static_url(" ++ String.mk mid ++ ")")
          :: findCalls fuel rest1
      | none => findCalls fuel rest
    else findCalls fuel rest

/-! ### The `@import` finder

`import_finder` is
`re.compile(r"""@import (url\()?(["'])(.*?)(\2)""").finditer`: after the
literal `@import ` and an optional `url(`, a quote character opens group 3,
which runs lazily (no newline) to the next identical quote. -/

def atImportLit : List Char := "@import ".data
def urlParenLit : List Char := "url(".data

/-- Scan group 3: characters up to the closing quote `q`. -/
def scanQuoted (q : Char) : List Char → Option (List Char × List Char)
  | [] => none
  | c :: rest =>
    if c = q then some ([], rest)
    else if c = nlChar then none
    else (scanQuoted q rest).map (fun r => (c :: r.1, r.2))

/-- All group-3 captures of `import_finder`.  Fuel = input length. -/
def findImports : Nat → List Char → List String
  | 0, _ => []
  | _ + 1, [] => []
  | fuel + 1, c :: rest =>
    if atImportLit.isPrefixOf (c :: rest) then
      let t0 := (c :: rest).drop 8
      let t1 := if urlParenLit.isPrefixOf t0 then t0.drop 4 else t0
      match t1 with
      | q :: t2 =>
        if q = dquote ∨ q = squote then
          match scanQuoted q t2 with
          | some (g3, rest1) => String.mk g3 :: findImports fuel rest1
          | none => findImports fuel rest
        else findImports fuel rest
      | [] => findImports fuel rest
    else findImports fuel rest

/-! ### The static-reference finder -/

/-- Modelled from the spec: `get_static_pattern` / `make_static_path` live
in `assetman.tools`, which is not under `src/`.  The spec describes the
URL prefix as "used to recognize in-source static references", so the
finder reports, for every occurrence of the prefix, the maximal run of
following characters up to a quote, whitespace, newline or parenthesis
(the relative path, regex group 2). -/
def staticTokenStop (c : Char) : Bool :=
  c = squote ∨ c = dquote ∨ c = ' ' ∨ c = nlChar ∨ c = '(' ∨ c = ')'

/-- Modelled from the spec: all group-2 captures of
`static_finder(s, static_url_prefix)`. -/
def findStatics (pfx : List Char) : Nat → List Char → List String
  | 0, _ => []
  | _ + 1, [] => []
  | fuel + 1, c :: rest =>
    if pfx ≠ [] ∧ pfx.isPrefixOf (c :: rest) then
      let after := (c :: rest).drop pfx.length
      let tok := after.takeWhile (fun ch => ¬ staticTokenStop ch)
      if tok = [] then findStatics pfx fuel rest
      else String.mk tok :: findStatics pfx fuel (after.drop tok.length)
    else findStatics pfx fuel rest

def static_finder (s : String) (static_url_pfx : String) : List String :=
  findStatics static_url_pfx.data s.data.length s.data

/-- Modelled from the spec: `make_static_path(static_dir, p)` resolves a
static reference against the static-asset root directory. -/
def make_static_path (static_dir p : String) : String := joinPath static_dir p

/-! ### First-level dependency extraction (`iter_*_deps`, `iter_deps`)

Each extractor returns `(deps, warns)`: the yielded dependency paths and
the paths reported by `logging.warn('Missing dep …')`, or the exception
that aborts it. -/

/-- The per-match body of `iter_template_deps`: check with the `quotes`
test, then yield the path when it is a file and warn otherwise.  An empty
group 1 makes `arg[0]` raise `IndexError`; an argument whose first or last
character is not a quote raises `ParseError(src_path, msg)`. -/
def templateDepsLoop (fs : FS) (static_dir src_path : String) :
    List (String × String) → List String × List String →
    Except BuildErr (List String × List String)
  | [], acc => .ok acc
  | (g1, g0) :: ms, (deps, warns) =>
    match g1.data with
    | [] => .error .indexError
    | c0 :: cs0 =>
      if ¬ pyQuotes.contains c0 ∨
         ¬ pyQuotes.contains ((c0 :: cs0).getLast (List.cons_ne_nil c0 cs0))
      then .error (.parseError src_path
        ("Vars not allowed in static_url calls: " ++ g0))
      else
        let dep_path :=
          make_static_path static_dir (String.mk (stripChars (c0 :: cs0) pyQuotes))
        if fs.isfile dep_path then
          templateDepsLoop fs static_dir src_path ms (deps ++ [dep_path], warns)
        else
          templateDepsLoop fs static_dir src_path ms (deps, warns ++ [dep_path])

/-- `iter_template_deps(static_dir, src_path)` — note: two parameters. -/
def iter_template_deps (fs : FS) (static_dir src_path : String) :
    Except BuildErr (List String × List String) :=
  let src := fs.read src_path
  templateDepsLoop fs static_dir src_path
    (findCalls src.data.length src.data) ([], [])

/-- The per-match body of the `@import` loop in `iter_css_deps`: a `.less`
source extends an extension-less import with `.less`; the resolved
directory and file must exist (`assert`), and the full path is yielded. -/
def cssImportsLoop (fs : FS) (src_path root : String) :
    List String → Except BuildErr (List String)
  | [] => .ok []
  | p :: ps =>
    let path := if pyEndsWith src_path (".less") ∧ splitext_ext p = ""
                then p ++ ".less" else p
    let new_root := normpath (joinPath root (dirnameStr path))
    let full_path := joinPath new_root (basenameStr path)
    if ¬ fs.isdir new_root then .error (.assertionError new_root)
    else if ¬ fs.isfile full_path then .error (.assertionError full_path)
    else (cssImportsLoop fs src_path root ps).map (fun l => full_path :: l)

/-- The static-reference loop shared by `iter_static_deps`: existing
candidates are yielded, missing ones are warned about and skipped. -/
def staticDepsLoop (fs : FS) (static_dir : String) :
    List String → List String × List String
  | [] => ([], [])
  | tok :: toks =>
    let dep_path := make_static_path static_dir tok
    let r := staticDepsLoop fs static_dir toks
    if fs.isfile dep_path then (dep_path :: r.1, r.2) else (r.1, dep_path :: r.2)

/-- `iter_static_deps(static_dir, src_path, static_url_prefix)`. -/
def iter_static_deps (fs : FS) (static_dir src_path static_url_pfx : String) :
    Except BuildErr (List String × List String) :=
  if ¬ fs.isfile src_path then .error (.assertionError src_path)
  else .ok (staticDepsLoop fs static_dir
    (static_finder (fs.read src_path) static_url_pfx))

/-- `iter_js_deps` delegates to `iter_static_deps`. -/
def iter_js_deps (fs : FS) (static_dir src_path static_url_pfx : String) :
    Except BuildErr (List String × List String) :=
  iter_static_deps fs static_dir src_path static_url_pfx

/-- `iter_css_deps(static_dir, src_path, static_url_prefix)`: first the
`@import` targets (with their `assert`s), then the static references. -/
def iter_css_deps (fs : FS) (static_dir src_path static_url_pfx : String) :
    Except BuildErr (List String × List String) :=
  if ¬ fs.isfile src_path then .error (.assertionError src_path)
  else
    let root := dirnameStr src_path
    let src := fs.read src_path
    match cssImportsLoop fs src_path root (findImports src.data.length src.data) with
    | .error e => .error e
    | .ok imps =>
      match iter_static_deps fs static_dir src_path static_url_pfx with
      | .error e => .error e
      | .ok (sdeps, warns) => .ok (imps ++ sdeps, warns)

/-- `iter_deps(static_dir, src_path, static_url_prefix)`: dispatch on
`os.path.splitext(src_path)[1]`.  The `.html` branch reproduces the source
as written: `iter_deps` invokes `dep_iter(static_dir, src_path,
static_url_prefix)`, but `iter_template_deps` is defined with two
parameters, so in Python the call itself raises `TypeError` before any
template dependency is extracted. -/
def iter_deps (fs : FS) (static_dir src_path static_url_pfx : String) :
    Except BuildErr (List String × List String) :=
  if ¬ fs.isfile src_path then .error (.assertionError src_path)
  else
    let ext := splitext_ext src_path
    if ext = ".js" then iter_js_deps fs static_dir src_path static_url_pfx
    else if ext = ".css" ∨ ext = ".less" ∨ ext = ".scss" then
      iter_css_deps fs static_dir src_path static_url_pfx
    else if ext = ".html" then
      .error (.typeError "iter_template_deps() takes exactly 2 arguments (3 given)")
    else .ok ([], [])

/-! ### `version_dependency`

The recursive Merkle-style version hash.  The incremental
`h.update(get_file_hash(path)); for dep: h.update(version_dependency(dep))`
digests exactly the concatenation
`get_file_hash(path) ++ version(dep_1) ++ … ++ version(dep_k)` with the
deps in the iteration order of the `deps` set.  Failed `assert`s and
exhausted fuel (the source has no cycle guard) are `none`. -/

/-- The loop over `manifest['assets'][path]['deps']`, threading the
memoizing manifest and accumulating the bytes fed to the digest. -/
def vdepList (recur : String → ManifestB → Option (ManifestB × String)) :
    List String → ManifestB → String → Option (ManifestB × String)
  | [], m, acc => some (m, acc)
  | d :: ds, m, acc =>
    match recur d m with
    | none => none
    | some (m1, v) => vdepList recur ds m1 (acc ++ v)

/-- The tail of `version_dependency` after the dependency loop: digest
the accumulated bytes, store `version`/`versioned_path` on the entry and
return the stored version (re-reading the entry, as the source does). -/
def vdepFinish (path : String) (entry : AssetEntry) :
    Option (ManifestB × String) → Option (ManifestB × String)
  | none => none
  | some (m1, input) =>
    let version := md5_hex input
    let ext := splitext_ext path
    let entry1 := (m1.assets.lookup path).getD entry
    let entry2 := { entry1 with
      version := some version, versioned_path := some (version ++ ext) }
    let m2 : ManifestB := { m1 with assets := assocSet m1.assets path entry2 }
    some (m2, (((m2.assets.lookup path).getD entry2).version).getD "")

/-- One unfolding of `version_dependency`:
`assert path in manifest['assets']`, `assert os.path.isfile(path)`,
return the memoized version when truthy, otherwise digest the file hash
followed by each dep's version and finish with `vdepFinish`. -/
def vdepStep (fs : FS)
    (recur : String → ManifestB → Option (ManifestB × String))
    (path : String) (m : ManifestB) : Option (ManifestB × String) :=
  match m.assets.lookup path with
  | none => none
  | some entry =>
    if fs.isfile path then
      if truthyS entry.version then some (m, entry.version.getD "")
      else vdepFinish path entry (vdepList recur entry.deps m (get_file_hash fs path))
    else none

/-- `version_dependency(path, manifest)`, with recursion depth bounded by
`fuel` (the source recurses without a cycle guard). -/
def version_dependency (fs : FS) (fuel : Nat) :
    String → ManifestB → Option (ManifestB × String) :=
  Nat.rec (motive := fun _ => String → ManifestB → Option (ManifestB × String))
    (fun _ _ => none) (fun _ ih => vdepStep fs ih) fuel

/-! ### `normalize_manifest`

The sanity checks: for every asset entry and each of its deps, `assert
dep in manifest['assets']` and `assert depspec['version']`; for every
block, `assert depspec['version']`.  (The set→list conversion is already
reflected in the model's `deps : List String`; a failed `assert` is
`none`, and the assertion message payload is not modelled.) -/
def normalize_manifest (m : ManifestB) : Option ManifestB :=
  if m.assets.all (fun pe =>
       pe.2.deps.all (fun dep =>
         (m.assets.lookup dep).isSome && truthyS pe.2.version)) &&
     m.blocks.all (fun be => truthyS be.2.version)
  then some m else none

/-! ### `_build_manifest_helper`

For each source path: install the skeleton entry (`setdefault`), then for
each first-level dependency add it to the `deps` set and recurse into it.
The recursion depth is bounded by `fuel`; `none` means the walk did not
terminate within the fuel (the source has no cycle guard). -/

/-- `manifest['assets'].setdefault(src_path, empty_asset_entry())`. -/
def setdefaultAsset (m : ManifestB) (src : String) : ManifestB :=
  if (m.assets.lookup src).isSome then m
  else { m with assets := m.assets ++ [(src, empty_asset_entry)] }

/-- `manifest['assets'][src_path]['deps'].add(dep_path)`: append when
absent (set insertion order is the model's iteration order). -/
def addDep (m : ManifestB) (src dep : String) : ManifestB :=
  match m.assets.lookup src with
  | none => m
  | some e =>
    let e1 := { e with
      deps := if e.deps.contains dep then e.deps else e.deps ++ [dep] }
    { m with assets := assocSet m.assets src e1 }

/-- The inner loop over the deps yielded by `iter_deps` for one source
path: record the dep, then recurse into `[dep_path]`. -/
def bmhDeps (recur : String → ManifestB → Option (Except BuildErr ManifestB))
    (src : String) : List String → ManifestB → Option (Except BuildErr ManifestB)
  | [], m => some (.ok m)
  | d :: ds, m =>
    match recur d (addDep m src d) with
    | none => none
    | some (.error e) => some (.error e)
    | some (.ok m1) => bmhDeps recur src ds m1

/-- The outer loop over `src_paths`. -/
def bmhSrcs (fs : FS) (static_dir static_url_pfx : String)
    (recur : String → ManifestB → Option (Except BuildErr ManifestB)) :
    List String → ManifestB → Option (Except BuildErr ManifestB)
  | [], m => some (.ok m)
  | src :: rest, m =>
    let m1 := setdefaultAsset m src
    match iter_deps fs static_dir src static_url_pfx with
    | .error e => some (.error e)
    | .ok (deps, _) =>
      match bmhDeps recur src deps m1 with
      | none => none
      | some (.error e) => some (.error e)
      | some (.ok m2) => bmhSrcs fs static_dir static_url_pfx recur rest m2

/-- `_build_manifest_helper(static_dir, src_paths, static_url_prefix,
manifest)` with recursion depth bounded by `fuel`. -/
def build_manifest_helper (fs : FS) (static_dir static_url_pfx : String)
    (fuel : Nat) : List String → ManifestB → Option (Except BuildErr ManifestB) :=
  Nat.rec (motive := fun _ => List String → ManifestB → Option (Except BuildErr ManifestB))
    (fun _ _ => none)
    (fun _ ih => bmhSrcs fs static_dir static_url_pfx (fun d m => ih [d] m)) fuel

/-! ### The `main` orchestration

`main(options)` is modelled as a pure function of the options and of a
world record carrying everything `main` consults: which directories
exist, the cached manifest loaded from durable storage, the result of
`build_manifest` (the parser collaborator lives outside `src/`, so the
build outcome is an input here), whether the user interrupts the compile
phase, and each compiler's behaviour.  The outcome records the exit code,
whether `current_manifest.write()` ran, which compiled outputs were
written, and whether the build phase was reached. -/

/-- Whether the last character of `l` is `c`. -/
def lastIs (c : Char) (l : List Char) : Bool :=
  match l.getLast? with
  | some d => d = c
  | none => false

/-- The closing part of `^/.*?/$`: the (possibly newline-stripped) tail
must end in a slash preceded by a newline-free middle (`.` does not cross
newlines). -/
def matchCore (core : List Char) : Bool :=
  if lastIs '/' core then core.dropLast.all (fun ch => ch ≠ nlChar) else false

/-- `re.match(r'^/.*?/$', s)` as a Boolean: a leading slash, a newline-free
middle, a closing slash, and `$` also matching just before one trailing
newline (which is stripped before `matchCore`). -/
def matchPrefixChars : List Char → Bool
  | [] => false
  | c :: rest =>
    if c = '/' then
      matchCore (if lastIs nlChar rest then rest.dropLast else rest)
    else false

def match_static_url_pfx (s : String) : Bool := matchPrefixChars s.data

instance {ε α : Type} [DecidableEq ε] [DecidableEq α] : DecidableEq (Except ε α) :=
  fun a b =>
  match a, b with
  | .error e1, .error e2 =>
    if h : e1 = e2 then isTrue (by rw [h])
    else isFalse (by intro hh; cases hh; exact h rfl)
  | .error _, .ok _ => isFalse (by intro hh; cases hh)
  | .ok _, .error _ => isFalse (by intro hh; cases hh)
  | .ok a1, .ok a2 =>
    if h : a1 = a2 then isTrue (by rw [h])
    else isFalse (by intro hh; cases hh; exact h rfl)

/-- An `AssetCompiler` as `main` consumes it (the Compiler collaborator is
external): its content-hash identifier, its answer to
`needs_compile(cached_manifest, current_manifest)`, its compiled output
path, and the outcome of `compile` (`CompileError(cmd, msg)` or output). -/
structure CompilerM where
  hash : String
  needs : Bool
  compiled_path : String
  compile_result : Except (List String × String) String
deriving Repr, DecidableEq

/-- The options `main` reads. -/
structure OptionsM where
  template_dirs : List String
  static_dir : String
  output_dir : String
  static_url_path : String
  test_needs_compile : Bool
  force : Bool
  skip_inline_images : Bool
deriving Repr, DecidableEq

/-- The world `main` observes. -/
structure WorldM where
  dirs : List String
  cached_manifest : ManifestB
  build_result : Except BuildErr (ManifestB × List CompilerM)
  interrupted : Bool
deriving Repr, DecidableEq

/-- The observable outcome of a `main` run. -/
structure MainOutcome where
  exit : Nat
  manifest_written : Bool
  files_written : List String
  build_attempted : Bool
deriving Repr, DecidableEq

/-- `dict((c.get_hash(), c) for c in compilers)`: keyed insertion where a
later compiler with the same hash replaces the earlier one. -/
def dedup_by_hash (cs : List CompilerM) : List CompilerM :=
  (cs.foldl (fun acc c => assocSet acc c.hash c) []).map (fun kv => kv.2)

/-- `to_compile`: every de-duplicated compiler under `--force`, otherwise
`filter(needs_compile, compilers)`. -/
def scheduled_compilers (force : Bool) (cs : List CompilerM) : List CompilerM :=
  let d := dedup_by_hash cs
  if force then d else d.filter (fun c => c.needs)

/-- `assets_in_sync(asset)`: false when the asset is missing from the
cached manifest or its cached version differs from the current one. -/
def assets_in_sync_fn (cached current : ManifestB) (asset : String) : Bool :=
  match cached.assets.lookup asset with
  | none => false
  | some ce =>
    if ce.version ≠ ((current.assets.lookup asset).getD empty_asset_entry).version
    then false else true

/-- The compile pool: each scheduled compiler writes its compiled output,
and the first `CompileError` aborts the batch.  Returns the written paths
and the error, if any. -/
def run_compiles : List CompilerM → List String × Option (List String × String)
  | [] => ([], none)
  | c :: rest =>
    match c.compile_result with
    | .error e => ([], some e)
    | .ok _ =>
      let r := run_compiles rest
      (c.compiled_path :: r.1, r.2)

/-- The part of `main` after a successful `build_manifest`:
de-duplication, the staleness decision, the compile pool with its
`CompileError`/`KeyboardInterrupt` handlers, and the final
`current_manifest.write()`. -/
def main_after_build (opts : OptionsM) (w : WorldM) (current : ManifestB)
    (compilers : List CompilerM) : MainOutcome :=
  let to_compile := scheduled_compilers opts.force compilers
  let out_of_sync :=
    ¬ current.assets.all (fun pe => assets_in_sync_fn w.cached_manifest current pe.1)
  if ¬ to_compile.isEmpty ∨ out_of_sync then
    if opts.test_needs_compile then
      { exit := 1, manifest_written := false, files_written := [], build_attempted := true }
    else if w.interrupted then
      { exit := 1, manifest_written := false, files_written := [], build_attempted := true }
    else
      match run_compiles to_compile with
      | (files, some _) =>
        { exit := 1, manifest_written := false, files_written := files,
          build_attempted := true }
      | (files, none) =>
        { exit := 0, manifest_written := true, files_written := files,
          build_attempted := true }
  else
    { exit := 0, manifest_written := false, files_written := [], build_attempted := true }

/-- The build-and-compile phase of `main`, entered once the configuration
checks pass: `build_manifest` with its `ParseError`/`DependencyError`
handlers (any build exception yields exit code 1), then `main_after_build`. -/
def main_build_phase (opts : OptionsM) (w : WorldM) : MainOutcome :=
  match w.build_result with
  | .error _ =>
    { exit := 1, manifest_written := false, files_written := [], build_attempted := true }
  | .ok (current, compilers) => main_after_build opts w current compilers

/-- `main(options)`: the prefix check (`sys.exit(1)` on failure) and the
directory checks, then the build-and-compile phase. -/
def main_run (opts : OptionsM) (w : WorldM) : MainOutcome :=
  if ¬ match_static_url_pfx opts.static_url_path then
    { exit := 1, manifest_written := false, files_written := [], build_attempted := false }
  else if ¬ opts.template_dirs.all (fun d => w.dirs.contains d) then
    { exit := 1, manifest_written := false, files_written := [], build_attempted := false }
  else if ¬ w.dirs.contains opts.static_dir then
    { exit := 1, manifest_written := false, files_written := [], build_attempted := false }
  else main_build_phase opts w

/-- The concatenation of the (already memoized) versions of `ds`, in the
iteration order of the `deps` set — the dependency part of the byte string
`version_dependency` digests. -/
def concatVersions (m : ManifestB) : List String → String
  | [] => ""
  | d :: ds =>
    ((((m.assets.lookup d).getD empty_asset_entry).version).getD ("")) ++
      concatVersions m ds

/-! ### Concrete fixtures used in the claim theorems and witnesses -/

def fsC1 : FS := { files := [("a", "A"), ("b", "B"), ("c", "C")], dirs := [] }

/-- Node `c` with dependency set `{a, b}` iterated as `[a, b]`. -/
def mC1a : ManifestB :=
  { assets := [("a", empty_asset_entry), ("b", empty_asset_entry),
               ("c", { version := none, versioned_path := none, deps := ["a", "b"] })],
    blocks := [] }

/-- The same dependency set iterated as `[b, a]`. -/
def mC1b : ManifestB :=
  { assets := [("a", empty_asset_entry), ("b", empty_asset_entry),
               ("c", { version := none, versioned_path := none, deps := ["b", "a"] })],
    blocks := [] }

def fsC2 : FS := { files := [("a", "A"), ("b", "B")], dirs := [] }

def mC2 : ManifestB :=
  { assets := [("a", empty_asset_entry),
               ("b", { version := none, versioned_path := none, deps := ["a"] })],
    blocks := [] }

/-- Witness fixture for the amended hashing formula: `a.css` is already
memoized, `b.less` depends on it. -/
def fsW2 : FS := { files := [("a.css", "AA"), ("b.less", "BB")], dirs := [] }

def mW2 : ManifestB :=
  { assets := [("a.css", { version := some "v1", versioned_path := some "v1.css",
                           deps := [] }),
               ("b.less", { version := none, versioned_path := none,
                            deps := ["a.css"] })],
    blocks := [] }

/-- A stylesheet whose `@import` target does not exist on disk. -/
def fsC4 : FS :=
  { files := [("css/s.css", "@import \"gone.css\"")], dirs := ["css"] }

/-- A script referencing one existing and one missing static asset. -/
def fsW4 : FS :=
  { files := [("js/app.js", "x = \"/s/img/a.png\"; y = \"/s/img/b.png\";"),
              ("static/img/a.png", "A")],
    dirs := [] }

/-- A manifest whose only asset entry has no deps and a null version. -/
def mC5 : ManifestB := { assets := [("a", empty_asset_entry)], blocks := [] }

/-- A template whose `static_url` argument is a variable reference. -/
def fsC6 : FS := { files := [("t.html", "assetman.static_url(x)")], dirs := [] }

/-- Options with the default static URL prefix `/`, otherwise well formed. -/
def optsC9 : OptionsM :=
  { template_dirs := [], static_dir := "static", output_dir := "out",
    static_url_path := "/", test_needs_compile := false, force := false,
    skip_inline_images := false }

def wC9 : WorldM :=
  { dirs := ["static"], cached_manifest := make_empty_manifest,
    build_result := .ok (make_empty_manifest, []), interrupted := false }

/-- Options identical to `optsC9` except for a two-slash prefix. -/
def optsW9 : OptionsM :=
  { template_dirs := [], static_dir := "static", output_dir := "out",
    static_url_path := "/s/", test_needs_compile := false, force := false,
    skip_inline_images := false }

/-- A lone asset whose extension has no registered extractor. -/
def fsC10 : FS := { files := [("logo.png", "PNGDATA")], dirs := [] }

/-- A compiler whose `compile` raises `CompileError`. -/
def cFail : CompilerM :=
  { hash := "h1", needs := true, compiled_path := "out/h1.js",
    compile_result := .error (["lessc", "a.less"], "boom") }

/-- A compiler whose `compile` succeeds. -/
def cOk : CompilerM :=
  { hash := "h2", needs := true, compiled_path := "out/h2.css",
    compile_result := .ok ("bytes") }

def wC3 : WorldM :=
  { dirs := ["static"], cached_manifest := make_empty_manifest,
    build_result := .ok (make_empty_manifest, [cOk, cFail]), interrupted := false }

/-- A fresh compiler that does not need recompilation. -/
def cClean : CompilerM :=
  { hash := "h3", needs := false, compiled_path := "out/h3.js",
    compile_result := .ok ("bytes") }

/-- A current manifest matching the cached one, for the no-op run. -/
def mSynced : ManifestB :=
  { assets := [("a.js", { version := some "va", versioned_path := some "va.js",
                          deps := [] })],
    blocks := [("h3", { version := some "vb", versioned_path := some "vb.js" })] }

def wC7 : WorldM :=
  { dirs := ["static"], cached_manifest := mSynced,
    build_result := .ok (mSynced, [cClean]), interrupted := false }

/-- Two compilers sharing one content hash, plus a distinct third. -/
def cDup1 : CompilerM :=
  { hash := "hh", needs := true, compiled_path := "out/hh.js",
    compile_result := .ok ("one") }

def cDup2 : CompilerM :=
  { hash := "hh", needs := true, compiled_path := "out/hh.js",
    compile_result := .ok ("two") }

/-! ## Theorems -/

theorem version_dependency_zero (fs : FS) :
    version_dependency fs 0 = fun _ _ => none := rfl

theorem version_dependency_succ (fs : FS) (n : Nat) :
    version_dependency fs (n + 1) = vdepStep fs (version_dependency fs n) := rfl

theorem build_manifest_helper_succ (fs : FS) (sd pfx : String) (n : Nat) :
    build_manifest_helper fs sd pfx (n + 1) =
      bmhSrcs fs sd pfx (fun d m => build_manifest_helper fs sd pfx n [d] m) := rfl

theorem lookup_assocSet_self {α : Type} (l : List (String × α)) (k : String) (v : α) :
    (assocSet l k v).lookup k = some v := by
  induction l with
  | nil => simp [assocSet, List.lookup]
  | cons p rest ih =>
    obtain ⟨k1, v1⟩ := p
    by_cases h : k1 = k
    · simp [assocSet, h, List.lookup]
    · simp [assocSet, h, List.lookup_cons, ih, Ne.symm h, beq_false_of_ne (Ne.symm h)]

/-- The memoized-dependency loop: when every listed dep already carries a
truthy version and exists on disk, the fold returns the manifest unchanged
and appends each version to the accumulator in order. -/
theorem vdepList_memoized (fs : FS) (n : Nat) :
    ∀ (ds : List String) (m : ManifestB) (acc : String),
      (∀ d ∈ ds, ∃ ed, m.assets.lookup d = some ed ∧ truthyS ed.version = true ∧
          fs.isfile d = true) →
      vdepList (version_dependency fs (n + 1)) ds m acc =
        some (m, acc ++ concatVersions m ds) := by
  intro ds
  induction ds with
  | nil =>
    intro m acc _
    simp [vdepList, concatVersions, String.append_empty]
  | cons d ds ih =>
    intro m acc h
    obtain ⟨ed, hlk, htr, hf⟩ := h d (by simp)
    have hstep : version_dependency fs (n + 1) d m = some (m, ed.version.getD ("")) := by
      rw [version_dependency_succ]
      simp [vdepStep, hlk, hf, htr]
    rw [vdepList, hstep]
    show vdepList (version_dependency fs (n + 1)) ds m (acc ++ ed.version.getD ("")) =
      some (m, acc ++ concatVersions m (d :: ds))
    rw [ih m (acc ++ ed.version.getD ("")) (fun d1 hd1 => h d1 (by simp [hd1]))]
    rw [concatVersions, hlk]
    simp [String.append_assoc]

/-- Collapsing one memoizing pass of `version_dependency` on an
unversioned node whose dependencies are all memoized: the stored and
returned version digests the node's file hash followed by the raw
dependency versions, in dep-list order. -/
theorem vdep_unversioned (fs : FS) (n : Nat) (path : String) (m : ManifestB)
    (e : AssetEntry)
    (hlk : m.assets.lookup path = some e)
    (hver : e.version = none)
    (hfil : fs.isfile path = true)
    (hdeps : ∀ d ∈ e.deps, ∃ ed, m.assets.lookup d = some ed ∧
        truthyS ed.version = true ∧ fs.isfile d = true) :
    ∃ m1, version_dependency fs (n + 2) path m =
      some (m1, md5_hex (get_file_hash fs path ++ concatVersions m e.deps)) := by
  have hsucc : version_dependency fs (n + 2) =
      vdepStep fs (version_dependency fs (n + 1)) := version_dependency_succ fs (n + 1)
  rw [hsucc]
  simp only [vdepStep, hlk, hfil, hver, truthyS, if_true, Bool.false_eq_true, if_false]
  rw [vdepList_memoized fs n e.deps m (get_file_hash fs path) hdeps]
  simp only [vdepFinish, lookup_assocSet_self, Option.getD_some]
  exact ⟨_, rfl⟩

theorem run_compiles_error_of_mem :
    ∀ l : List CompilerM, (∃ c ∈ l, ∃ e, c.compile_result = .error e) →
      ∃ err, (run_compiles l).2 = some err := by
  intro l
  induction l with
  | nil => rintro ⟨c, hc, _⟩; cases hc
  | cons c rest ih =>
    rintro ⟨c1, hc1, e, he⟩
    rcases List.mem_cons.mp hc1 with h | h
    · subst h
      rw [run_compiles, he]
      exact ⟨e, rfl⟩
    · rw [run_compiles]
      cases hres : c.compile_result with
      | error e2 => exact ⟨e2, rfl⟩
      | ok s =>
        obtain ⟨err, herr⟩ := ih ⟨c1, h, e, he⟩
        exact ⟨err, herr⟩

/-- C1: the computed version is NOT independent of the iteration order of
the dependency set.  `mC1a` and `mC1b` give node `c` the same dependency
set `{a, b}`, merely permuted (first conjunct), yet `version_dependency`
assigns `c` two different versions, because it feeds the dependency
versions to the digest in iteration order without canonicalizing
(sorting) them first. -/
theorem version_not_order_independent :
    ((mC1a.assets.lookup ("c")).getD empty_asset_entry).deps.Perm
      ((mC1b.assets.lookup ("c")).getD empty_asset_entry).deps ∧
    (version_dependency fsC1 3 ("c") mC1a).map (fun r => r.2) ≠
      (version_dependency fsC1 3 ("c") mC1b).map (fun r => r.2) := by
  exact ⟨by decide, by decide⟩

/-- C2 counterexample: the claimed formula re-digests each dependency's
version before concatenation.  With `a`'s version being
`md5(md5(bytes a))` (first conjunct), `b`'s computed version differs from
`md5( md5(bytes b) ‖ md5(version a) )`: the code concatenates
`version a` raw, it does not digest it again. -/
theorem version_no_redigest_cex :
    (version_dependency fsC2 1 ("a") mC2).map (fun r => r.2) =
      some (md5_hex (get_file_hash fsC2 ("a"))) ∧
    (version_dependency fsC2 2 ("b") mC2).map (fun r => r.2) ≠
      some (md5_hex (get_file_hash fsC2 ("b") ++
        md5_hex (md5_hex (get_file_hash fsC2 ("a"))))) := by
  exact ⟨by decide, by decide⟩

/-- C2 (amended): for a node whose entry is unversioned, whose file
exists, and whose deps are all memoized with truthy versions,
`version_dependency` computes
`md5( get_file_hash(node) ‖ version(dep_1) ‖ … ‖ version(dep_k) )` — each
dependency version concatenated raw (not re-digested), in the iteration
order of the `deps` set. -/
theorem version_dependency_formula
    (fs : FS) (n : Nat) (path : String) (m : ManifestB) (e : AssetEntry)
    (hlk : m.assets.lookup path = some e)
    (hver : e.version = none)
    (hfil : fs.isfile path = true)
    (hdeps : ∀ d ∈ e.deps, ∃ ed, m.assets.lookup d = some ed ∧
        truthyS ed.version = true ∧ fs.isfile d = true) :
    ∃ m1, version_dependency fs (n + 2) path m =
      some (m1, md5_hex (get_file_hash fs path ++ concatVersions m e.deps)) :=
  vdep_unversioned fs n path m e hlk hver hfil hdeps

/-- C2 witness: the amended formula at the fixture `mW2`: `b.less` hashes
to `md5( md5(bytes of b.less) ‖ "v1" )` where `"v1"` is the memoized
version of its dependency `a.css`. -/
theorem version_dependency_formula_witness :
    (version_dependency fsW2 2 ("b.less") mW2).map (fun r => r.2) =
      some (md5_hex (get_file_hash fsW2 ("b.less") ++ concatVersions mW2 (["a.css"]))) := by
  obtain ⟨m1, hm1⟩ := version_dependency_formula fsW2 0 ("b.less") mW2
    ({ version := none, versioned_path := none, deps := ["a.css"] })
    (by decide) (by decide) (by decide)
    (by
      intro d hd
      simp only [List.mem_singleton] at hd
      subst hd
      exact ⟨{ version := some "v1", versioned_path := some "v1.css", deps := [] },
        by decide, by decide, by decide⟩)
  rw [hm1]
  simp only [Option.map_some']

/-- C5 counterexample: `normalize_manifest` accepts a manifest whose only
asset entry has no deps and a `None` version — the version assertion runs
only inside the per-dependency loop, so entries without deps are never
checked. -/
theorem normalize_accepts_null_version_cex :
    normalize_manifest mC5 = some mC5 ∧
    ((mC5.assets.lookup ("a")).getD empty_asset_entry).version = none := by
  exact ⟨by decide, by decide⟩

/-- C5 (amended): `normalize_manifest` succeeds exactly when every
dependency of every asset entry is a key of `assets`, every asset entry
that has at least one dependency carries a truthy version (the check
fires once per dependency), and every block entry carries a truthy
version. -/
theorem normalize_manifest_checks (m : ManifestB) :
    (normalize_manifest m).isSome = true ↔
      ((∀ pe ∈ m.assets, ∀ d ∈ pe.2.deps,
          (m.assets.lookup d).isSome = true ∧ truthyS pe.2.version = true) ∧
        ∀ be ∈ m.blocks, truthyS be.2.version = true) := by
  unfold normalize_manifest
  split
  next hc =>
    simp only [Bool.and_eq_true, List.all_eq_true] at hc
    simp only [Option.isSome_some, true_iff]
    exact hc
  next hc =>
    simp only [Bool.and_eq_true, List.all_eq_true] at hc
    simp only [Option.isSome_none, Bool.false_eq_true, false_iff]
    exact hc

/-- C5 witness: the amended characterization applied to a concrete
manifest whose asset entry has no deps and whose block is versioned. -/
theorem normalize_manifest_checks_witness :
    (normalize_manifest mSynced).isSome = true := by
  have h := normalize_manifest_checks mSynced
  apply h.mpr
  refine ⟨?_, ?_⟩
  · intro pe hpe d hd
    simp only [mSynced, List.mem_singleton] at hpe
    subst hpe
    cases hd
  · intro be hbe
    simp only [mSynced, List.mem_singleton] at hbe
    subst hbe
    decide

/-- C6: `iter_deps` on a template aborts with `TypeError`, not
`ParseError`: the dispatch calls the two-parameter `iter_template_deps`
with three arguments.  `iter_template_deps` itself (second conjunct) does
raise `ParseError` naming the source file and the offending directive for
a non-literal argument, which is the behaviour the claim describes. -/
theorem html_deps_arity_error :
    iter_deps fsC6 ("static") ("t.html") ("/s/") =
      .error (.typeError ("iter_template_deps() takes exactly 2 arguments (3 given)")) ∧
    iter_template_deps fsC6 ("static") ("t.html") =
      .error (.parseError ("t.html")
        ("Vars not allowed in static_url calls: assetman.static_url(x)")) := by
  exact ⟨by decide, by decide⟩

theorem staticDepsLoop_spec (fs : FS) (sdir : String) :
    ∀ toks : List String,
      (∀ p ∈ (staticDepsLoop fs sdir toks).1, fs.isfile p = true) ∧
      (∀ p ∈ (staticDepsLoop fs sdir toks).2, fs.isfile p = false) := by
  intro toks
  induction toks with
  | nil =>
    constructor <;> intro p hp <;> simp [staticDepsLoop] at hp
  | cons t ts ih =>
    by_cases hf : fs.isfile (make_static_path sdir t) = true
    · constructor
      · intro p hp
        simp only [staticDepsLoop, hf, if_true, List.mem_cons] at hp
        rcases hp with h | h
        · subst h; exact hf
        · exact ih.1 p h
      · intro p hp
        simp only [staticDepsLoop, hf, if_true] at hp
        exact ih.2 p hp
    · have hf2 : fs.isfile (make_static_path sdir t) = false :=
        Bool.eq_false_iff.mpr hf
      constructor
      · intro p hp
        simp only [staticDepsLoop, hf2, Bool.false_eq_true, if_false] at hp
        exact ih.1 p hp
      · intro p hp
        simp only [staticDepsLoop, hf2, Bool.false_eq_true, if_false,
          List.mem_cons] at hp
        rcases hp with h | h
        · subst h; exact hf2
        · exact ih.2 p h

/-- C4 counterexample: a stylesheet `@import` whose target is missing on
disk does not get warned-and-skipped: the `assert os.path.isfile(...)` in
`iter_css_deps` fails, and the failure propagates out of
`_build_manifest_helper`, aborting the manifest build. -/
theorem css_import_missing_aborts_cex :
    iter_css_deps fsC4 ("static") ("css/s.css") ("/s/") =
      .error (.assertionError ("css/gone.css")) ∧
    build_manifest_helper fsC4 ("static") ("/s/") 2 (["css/s.css"]) make_empty_manifest =
      some (.error (.assertionError ("css/gone.css"))) := by
  exact ⟨by decide, by decide⟩

/-- C4 (amended): for static references — the script extractor and the
static pass of the stylesheet extractor — a referenced path that is
missing on disk is only warned about (collected in the warn list) and
omitted from the yielded deps, and extraction never fails; stylesheet
`@import` targets, by contrast, abort via assertion when missing, and
template references are unreachable through `iter_deps` (arity
`TypeError`). -/
theorem static_refs_lenient (fs : FS) (sdir src pfx : String)
    (hsrc : fs.isfile src = true) :
    ∃ ds ws, iter_js_deps fs sdir src pfx = .ok (ds, ws) ∧
      (∀ p ∈ ds, fs.isfile p = true) ∧ (∀ p ∈ ws, fs.isfile p = false) := by
  refine ⟨(staticDepsLoop fs sdir (static_finder (fs.read src) pfx)).1,
          (staticDepsLoop fs sdir (static_finder (fs.read src) pfx)).2, ?_, ?_, ?_⟩
  · simp [iter_js_deps, iter_static_deps, hsrc]
  · exact (staticDepsLoop_spec fs sdir _).1
  · exact (staticDepsLoop_spec fs sdir _).2

/-- C4 witness: the leniency theorem applied to a script referencing one
existing and one missing image. -/
theorem static_refs_lenient_witness :
    (iter_js_deps fsW4 ("static") ("js/app.js") ("/s/")).isOk = true := by
  obtain ⟨ds, ws, h1, _, _⟩ :=
    static_refs_lenient fsW4 ("static") ("js/app.js") ("/s/") (by decide)
  rw [h1]
  rfl

/-- C10: a source path whose extension has no registered extractor yields
no dependencies, becomes a skeleton (leaf) entry with empty deps during
the traversal, and its version is `md5(md5(own bytes))` — a function of
its own file contents only. -/
theorem unknown_extension_leaf (fs : FS) (sdir pfx p : String)
    (bl : List (String × BlockEntry)) (n : Nat)
    (hf : fs.isfile p = true)
    (hext : splitext_ext p ∉ ([".js", ".css", ".less", ".scss", ".html"] : List String)) :
    iter_deps fs sdir p pfx = .ok ([], []) ∧
    build_manifest_helper fs sdir pfx (n + 1) [p] { assets := [], blocks := bl } =
      some (.ok { assets := [(p, empty_asset_entry)], blocks := bl }) ∧
    (version_dependency fs (n + 2) p
        { assets := [(p, empty_asset_entry)], blocks := bl }).map (fun r => r.2) =
      some (md5_hex (md5_hex (fs.read p))) := by
  simp only [List.mem_cons, List.not_mem_nil, or_false, not_or] at hext
  obtain ⟨h1, h2, h3, h4, h5⟩ := hext
  have hiter : iter_deps fs sdir p pfx = .ok ([], []) := by
    unfold iter_deps
    simp [hf, h1, h2, h3, h4, h5]
  have hlk : (({ assets := [(p, empty_asset_entry)], blocks := bl } :
      ManifestB).assets).lookup p = some empty_asset_entry := by
    simp [List.lookup]
  refine ⟨hiter, ?_, ?_⟩
  · rw [build_manifest_helper_succ]
    have hsd : setdefaultAsset { assets := [], blocks := bl } p =
        { assets := [(p, empty_asset_entry)], blocks := bl } := by
      simp [setdefaultAsset, List.lookup]
    simp only [bmhSrcs, bmhDeps, hsd, hiter]
  · obtain ⟨m1, hm1⟩ :=
      vdep_unversioned fs n p { assets := [(p, empty_asset_entry)], blocks := bl }
        empty_asset_entry hlk rfl hf (by intro d hd; cases hd)
    rw [hm1, Option.map_some']
    simp only [concatVersions, String.append_empty]
    rfl

/-- C10 witness: the leaf theorem applied to a PNG: no extractor, a leaf
skeleton entry, and a version depending only on the file's bytes. -/
theorem unknown_extension_leaf_witness :
    iter_deps fsC10 ("static") ("logo.png") ("/s/") = .ok ([], []) ∧
    (version_dependency fsC10 2 ("logo.png")
        { assets := [("logo.png", empty_asset_entry)], blocks := [] }).map
      (fun r => r.2) = some (md5_hex (md5_hex (fsC10.read ("logo.png")))) := by
  obtain ⟨ha, _, hc⟩ :=
    unknown_extension_leaf fsC10 ("static") ("/s/") ("logo.png") [] 0
      (by decide) (by decide)
  exact ⟨ha, hc⟩

theorem run_compiles_none_ok :
    ∀ l : List CompilerM, (run_compiles l).2 = none →
      ∀ c ∈ l, ∃ s, c.compile_result = .ok s := by
  intro l
  induction l with
  | nil => intro _ c hc; cases hc
  | cons c rest ih =>
    intro hnone c1 hc1
    rw [run_compiles] at hnone
    cases hres : c.compile_result with
    | error e => rw [hres] at hnone; cases hnone
    | ok s =>
      rw [hres] at hnone
      rcases List.mem_cons.mp hc1 with h | h
      · exact ⟨s, h ▸ hres⟩
      · exact ih hnone c1 h

theorem main_after_build_spec (opts : OptionsM) (w : WorldM) (current : ManifestB)
    (cs : List CompilerM) :
    ((∃ c ∈ scheduled_compilers opts.force cs, ∃ e, c.compile_result = .error e) →
      (main_after_build opts w current cs).exit = 1 ∧
        (main_after_build opts w current cs).manifest_written = false) ∧
    ((w.interrupted = true ∧ (scheduled_compilers opts.force cs).isEmpty = false) →
      (main_after_build opts w current cs).exit = 1 ∧
        (main_after_build opts w current cs).manifest_written = false) ∧
    ((main_after_build opts w current cs).manifest_written = true →
      w.interrupted = false ∧
        ∀ c ∈ scheduled_compilers opts.force cs, ∃ s, c.compile_result = .ok s) := by
  by_cases hcond : ¬ (scheduled_compilers opts.force cs).isEmpty = true ∨
      ¬ current.assets.all
        (fun pe => assets_in_sync_fn w.cached_manifest current pe.1) = true
  · by_cases htest : opts.test_needs_compile = true
    · have hout : main_after_build opts w current cs =
          { exit := 1, manifest_written := false, files_written := [],
            build_attempted := true } := by
        unfold main_after_build
        rw [if_pos hcond, if_pos htest]
      rw [hout]
      exact ⟨fun _ => ⟨rfl, rfl⟩, fun _ => ⟨rfl, rfl⟩, fun h => by cases h⟩
    · by_cases hint : w.interrupted = true
      · have hout : main_after_build opts w current cs =
            { exit := 1, manifest_written := false, files_written := [],
              build_attempted := true } := by
          unfold main_after_build
          rw [if_pos hcond, if_neg htest, if_pos hint]
        rw [hout]
        exact ⟨fun _ => ⟨rfl, rfl⟩, fun _ => ⟨rfl, rfl⟩, fun h => by cases h⟩
      · rcases hrc : run_compiles (scheduled_compilers opts.force cs) with ⟨files, oerr⟩
        cases oerr with
        | some err =>
          have hout : main_after_build opts w current cs =
              { exit := 1, manifest_written := false, files_written := files,
                build_attempted := true } := by
            unfold main_after_build
            rw [if_pos hcond, if_neg htest, if_neg hint, hrc]
          rw [hout]
          exact ⟨fun _ => ⟨rfl, rfl⟩, fun _ => ⟨rfl, rfl⟩, fun h => by cases h⟩
        | none =>
          have hout : main_after_build opts w current cs =
              { exit := 0, manifest_written := true, files_written := files,
                build_attempted := true } := by
            unfold main_after_build
            rw [if_pos hcond, if_neg htest, if_neg hint, hrc]
          rw [hout]
          refine ⟨?_, ?_, ?_⟩
          · intro hfail
            obtain ⟨err, herr⟩ := run_compiles_error_of_mem _ hfail
            rw [hrc] at herr
            cases herr
          · intro ⟨hi, _⟩
            exact absurd hi hint
          · intro _
            refine ⟨Bool.not_eq_true w.interrupted ▸ hint, ?_⟩
            exact run_compiles_none_ok _ (by rw [hrc])
  · have hout : main_after_build opts w current cs =
        { exit := 0, manifest_written := false, files_written := [],
          build_attempted := true } := by
      unfold main_after_build
      rw [if_neg hcond]
    rw [hout]
    refine ⟨?_, ?_, fun h => by cases h⟩
    · intro ⟨c, hc, _⟩
      have hne : (scheduled_compilers opts.force cs).isEmpty = false :=
        List.isEmpty_eq_false.mpr (List.ne_nil_of_mem hc)
      exact absurd (Or.inl (by rw [hne]; exact Bool.false_ne_true)) hcond
    · intro ⟨_, hne⟩
      exact absurd (Or.inl (by rw [hne]; exact Bool.false_ne_true)) hcond

/-- C3: an all-or-nothing commit.  Under a successful manifest build, a
`CompileError` from any scheduled compiler, or a user interrupt while
compiles are outstanding, makes `main` return a failure outcome without
calling `current_manifest.write()`; and whenever the manifest is
persisted, every scheduled compile succeeded and no interrupt occurred. -/
theorem main_commits_only_on_full_success
    (opts : OptionsM) (w : WorldM) (current : ManifestB) (cs : List CompilerM)
    (hb : w.build_result = .ok (current, cs)) :
    ((∃ c ∈ scheduled_compilers opts.force cs, ∃ e, c.compile_result = .error e) →
      (main_run opts w).exit = 1 ∧ (main_run opts w).manifest_written = false) ∧
    ((w.interrupted = true ∧ (scheduled_compilers opts.force cs).isEmpty = false) →
      (main_run opts w).exit = 1 ∧ (main_run opts w).manifest_written = false) ∧
    ((main_run opts w).manifest_written = true →
      w.interrupted = false ∧
        ∀ c ∈ scheduled_compilers opts.force cs, ∃ s, c.compile_result = .ok s) := by
  have hphase : main_build_phase opts w = main_after_build opts w current cs := by
    unfold main_build_phase
    rw [hb]
  have hmain : main_run opts w =
      { exit := 1, manifest_written := false, files_written := [],
        build_attempted := false } ∨
      main_run opts w = main_after_build opts w current cs := by
    unfold main_run
    by_cases h1 : match_static_url_pfx opts.static_url_path = true
    · by_cases h2 : opts.template_dirs.all (fun d => w.dirs.contains d) = true
      · by_cases h3 : w.dirs.contains opts.static_dir = true
        · right
          rw [if_neg (not_not_intro h1), if_neg (not_not_intro h2),
            if_neg (not_not_intro h3)]
          exact hphase
        · left
          rw [if_neg (not_not_intro h1), if_neg (not_not_intro h2), if_pos h3]
      · left
        rw [if_neg (not_not_intro h1), if_pos h2]
    · left
      rw [if_pos h1]
  rcases hmain with habort | hgo
  · rw [habort]
    exact ⟨fun _ => ⟨rfl, rfl⟩, fun _ => ⟨rfl, rfl⟩, fun h => by cases h⟩
  · rw [hgo]
    exact main_after_build_spec opts w current cs

/-- C3 witness: with one succeeding and one failing compiler scheduled,
the run exits 1 and the manifest is not written. -/
theorem main_commits_only_on_full_success_witness :
    (main_run optsW9 wC3).exit = 1 ∧ (main_run optsW9 wC3).manifest_written = false := by
  have h := main_commits_only_on_full_success optsW9 wC3 make_empty_manifest
    ([cOk, cFail]) (by decide)
  exact h.1 ⟨cFail, by decide, (["lessc", "a.less"], "boom"), by decide⟩

/-- C7: the no-op run.  With a valid prefix, existing directories, a
successful build, force mode off, no de-duplicated compiler reporting
itself stale, and every current asset present in the cached manifest with
an equal version, `main` reaches the build phase, writes no compiled
output and no manifest, and returns success. -/
theorem main_noop_when_in_sync
    (opts : OptionsM) (w : WorldM) (current : ManifestB) (cs : List CompilerM)
    (hpfx : match_static_url_pfx opts.static_url_path = true)
    (htd : opts.template_dirs.all (fun d => w.dirs.contains d) = true)
    (hsd : w.dirs.contains opts.static_dir = true)
    (hb : w.build_result = .ok (current, cs))
    (hforce : opts.force = false)
    (hstale : ∀ c ∈ dedup_by_hash cs, c.needs = false)
    (hsync : ∀ pe ∈ current.assets, ∃ ce,
        w.cached_manifest.assets.lookup pe.1 = some ce ∧
        ce.version = ((current.assets.lookup pe.1).getD empty_asset_entry).version) :
    main_run opts w =
      { exit := 0, manifest_written := false, files_written := [],
        build_attempted := true } := by
  have hsched : scheduled_compilers opts.force cs = [] := by
    unfold scheduled_compilers
    rw [hforce]
    rw [if_neg (by simp)]
    exact List.filter_eq_nil_iff.mpr
      (fun c hc h => by rw [hstale c hc] at h; cases h)
  have hall : current.assets.all
      (fun pe => assets_in_sync_fn w.cached_manifest current pe.1) = true := by
    rw [List.all_eq_true]
    intro pe hpe
    obtain ⟨ce, hce, hv⟩ := hsync pe hpe
    simp only [assets_in_sync_fn, hce]
    rw [if_neg (not_not_intro hv)]
  unfold main_run
  rw [if_neg (not_not_intro hpfx), if_neg (not_not_intro htd),
    if_neg (not_not_intro hsd)]
  unfold main_build_phase
  rw [hb]
  show main_after_build opts w current cs = _
  unfold main_after_build
  rw [if_neg ?_]
  rintro (hne | hoos)
  · rw [hsched] at hne
    exact hne List.isEmpty_nil
  · exact hoos hall

/-- C7 witness: the no-op theorem at a concrete synced world. -/
theorem main_noop_when_in_sync_witness :
    main_run optsW9 wC7 =
      { exit := 0, manifest_written := false, files_written := [],
        build_attempted := true } := by
  refine main_noop_when_in_sync optsW9 wC7 mSynced ([cClean]) (by decide) (by decide)
    (by decide) (by decide) (by decide) (by decide) ?_
  intro pe hpe
  simp only [mSynced, List.mem_singleton] at hpe
  subst hpe
  exact ⟨{ version := some "va", versioned_path := some "va.js", deps := [] },
    by decide, by decide⟩

theorem assocSet_keys {α : Type} :
    ∀ (l : List (String × α)) (k : String) (v : α),
      (assocSet l k v).map Prod.fst =
        if k ∈ l.map Prod.fst then l.map Prod.fst else l.map Prod.fst ++ [k] := by
  intro l k v
  induction l with
  | nil => simp [assocSet]
  | cons p rest ih =>
    obtain ⟨k1, v1⟩ := p
    by_cases h : k1 = k
    · subst h
      simp [assocSet]
    · simp only [assocSet, if_neg h, List.map_cons, ih]
      by_cases hk : k ∈ rest.map Prod.fst
      · simp [hk, h]
      · simp [hk, h, Ne.symm h]

theorem assocSet_forall {α : Type} (P : String × α → Prop) :
    ∀ (l : List (String × α)) (k : String) (v : α),
      (∀ p ∈ l, P p) → P (k, v) → ∀ q ∈ assocSet l k v, P q := by
  intro l k v
  induction l with
  | nil =>
    intro _ hkv q hq
    simp only [assocSet, List.mem_singleton] at hq
    subst hq
    exact hkv
  | cons p rest ih =>
    obtain ⟨k1, v1⟩ := p
    intro hall hkv q hq
    by_cases h : k1 = k
    · simp only [assocSet, if_pos h] at hq
      rcases List.mem_cons.mp hq with h0 | h0
      · subst h0; exact hkv
      · exact hall q (List.mem_cons_of_mem _ h0)
    · simp only [assocSet, if_neg h] at hq
      rcases List.mem_cons.mp hq with h0 | h0
      · subst h0; exact hall _ (List.mem_cons_self _ _)
      · exact ih (fun p hp => hall p (List.mem_cons_of_mem _ hp)) hkv q h0

theorem dedupFold_keys_nodup :
    ∀ (cs : List CompilerM) (acc : List (String × CompilerM)),
      (acc.map Prod.fst).Nodup →
      ((cs.foldl (fun a c => assocSet a c.hash c) acc).map Prod.fst).Nodup := by
  intro cs
  induction cs with
  | nil => exact fun acc h => h
  | cons c0 rest ih =>
    intro acc h
    rw [List.foldl_cons]
    apply ih
    rw [assocSet_keys]
    by_cases hk : c0.hash ∈ acc.map Prod.fst
    · rw [if_pos hk]; exact h
    · rw [if_neg hk]
      rw [List.nodup_append]
      exact ⟨h, List.nodup_singleton _,
        fun a ha hmem => by
          rw [List.mem_singleton] at hmem
          subst hmem
          exact hk ha⟩

theorem dedupFold_mem_keys :
    ∀ (cs : List CompilerM) (acc : List (String × CompilerM)) (c : CompilerM),
      (c ∈ cs ∨ c.hash ∈ acc.map Prod.fst) →
      c.hash ∈ ((cs.foldl (fun a c => assocSet a c.hash c) acc).map Prod.fst) := by
  intro cs
  induction cs with
  | nil =>
    intro acc c h
    rcases h with h | h
    · cases h
    · exact h
  | cons c0 rest ih =>
    intro acc c h
    rw [List.foldl_cons]
    apply ih
    rcases h with h | h
    · rcases List.mem_cons.mp h with h0 | h0
      · subst h0
        right
        rw [assocSet_keys]
        by_cases hk : c.hash ∈ acc.map Prod.fst
        · rw [if_pos hk]; exact hk
        · rw [if_neg hk]; exact List.mem_append_right _ (List.mem_singleton.mpr rfl)
      · exact Or.inl h0
    · right
      rw [assocSet_keys]
      by_cases hk : c0.hash ∈ acc.map Prod.fst
      · rw [if_pos hk]; exact h
      · rw [if_neg hk]; exact List.mem_append_left _ h

theorem dedupFold_keys_eq_hash :
    ∀ (cs : List CompilerM) (acc : List (String × CompilerM)),
      (∀ q ∈ acc, q.1 = q.2.hash) →
      ∀ q ∈ cs.foldl (fun a c => assocSet a c.hash c) acc, q.1 = q.2.hash := by
  intro cs
  induction cs with
  | nil => exact fun acc h => h
  | cons c0 rest ih =>
    intro acc h
    rw [List.foldl_cons]
    exact ih _ (assocSet_forall (fun q => q.1 = q.2.hash) acc c0.hash c0 h rfl)

theorem dedup_by_hash_map_hash (cs : List CompilerM) :
    (dedup_by_hash cs).map (fun c => c.hash) =
      (cs.foldl (fun a c => assocSet a c.hash c) []).map Prod.fst := by
  unfold dedup_by_hash
  rw [List.map_map]
  exact List.map_congr_left
    (fun q hq =>
      (dedupFold_keys_eq_hash cs [] (by intro q hq; cases hq) q hq).symm)

/-- C8: de-duplication by content hash.  The set of compilers scheduled
for compilation never contains two compilers with the same `get_hash`
identifier, and every compiler extracted from the templates is
represented exactly once (count 1) among the de-duplicated hashes — so a
block embedded by several templates is compiled once. -/
theorem scheduled_compilers_unique_hashes (force : Bool) (cs : List CompilerM) :
    ((scheduled_compilers force cs).map (fun c => c.hash)).Nodup ∧
    ∀ c ∈ cs, ((dedup_by_hash cs).map (fun c => c.hash)).count c.hash = 1 := by
  have hnd : ((dedup_by_hash cs).map (fun c => c.hash)).Nodup := by
    rw [dedup_by_hash_map_hash]
    exact dedupFold_keys_nodup cs [] (by simp)
  constructor
  · unfold scheduled_compilers
    cases force
    · rw [if_neg (by simp)]
      exact List.Nodup.sublist (List.Sublist.map _ (List.filter_sublist _)) hnd
    · rw [if_pos rfl]
      exact hnd
  · intro c hc
    apply List.count_eq_one_of_mem hnd
    rw [dedup_by_hash_map_hash]
    exact dedupFold_mem_keys cs [] c (Or.inl hc)

/-- C8 witness: two compilers sharing the hash `hh` collapse to a single
scheduled entry, counted once. -/
theorem scheduled_compilers_unique_hashes_witness :
    ((dedup_by_hash ([cDup1, cDup2, cClean])).map (fun c => c.hash)).count
      (("hh") : String) = 1 := by
  have h := (scheduled_compilers_unique_hashes false ([cDup1, cDup2, cClean])).2
    cDup1 (by decide)
  exact h

theorem getLast?_split {α : Type} (l : List α) (a : α) (h : l.getLast? = some a) :
    l = l.dropLast ++ [a] := by
  have hne : l ≠ [] := by
    intro he
    rw [he] at h
    cases h
  have h2 := List.getLast?_eq_getLast l hne
  rw [h] at h2
  have h3 : a = l.getLast hne := Option.some.inj h2
  rw [h3]
  exact (List.dropLast_append_getLast hne).symm

theorem lastIs_iff (c : Char) (l : List Char) :
    lastIs c l = true ↔ l.getLast? = some c := by
  unfold lastIs
  cases h : l.getLast? with
  | none => simp
  | some d => simp [decide_eq_true_eq]

theorem lastIs_concat (c a : Char) (l : List Char) :
    lastIs c (l ++ [a]) = decide (a = c) := by
  unfold lastIs
  rw [List.getLast?_concat]

theorem matchCore_concat_slash (mid : List Char) (hmid : nlChar ∉ mid) :
    matchCore (mid ++ (['/'])) = true := by
  have h1 : lastIs '/' (mid ++ (['/'])) = true := by
    rw [lastIs_concat]
    exact decide_eq_true rfl
  unfold matchCore
  rw [if_pos h1, List.dropLast_concat, List.all_eq_true]
  intro x hx
  simp only [decide_eq_true_eq]
  intro hxe
  subst hxe
  exact hmid hx

theorem matchCore_true (core : List Char) (h : matchCore core = true) :
    core = core.dropLast ++ (['/']) ∧ nlChar ∉ core.dropLast := by
  unfold matchCore at h
  by_cases hl : lastIs '/' core = true
  · rw [if_pos hl] at h
    refine ⟨getLast?_split _ _ ((lastIs_iff _ _).mp hl), ?_⟩
    intro hmem
    have hcontr := List.all_eq_true.mp h nlChar hmem
    simp at hcontr
  · rw [if_neg hl] at h
    cases h

/-- The matcher for `^/.*?/$` accepts exactly the strings of the shape
slash, newline-free middle, slash, optionally followed by one final
newline (which `$` tolerates). -/
theorem matchPrefixChars_iff (cs : List Char) :
    matchPrefixChars cs = true ↔
      ∃ mid : List Char, nlChar ∉ mid ∧
        (cs = '/' :: (mid ++ (['/'])) ∨ cs = '/' :: (mid ++ (['/', nlChar]))) := by
  cases cs with
  | nil =>
    simp [matchPrefixChars]
  | cons c rest =>
    by_cases hc : c = '/'
    case neg =>
      simp only [matchPrefixChars, if_neg hc, Bool.false_eq_true, false_iff]
      rintro ⟨mid, _, hcs | hcs⟩ <;> exact hc (List.head_eq_of_cons_eq hcs)
    case pos =>
      subst hc
      simp only [matchPrefixChars]
      rw [if_pos trivial]
      by_cases hnl : lastIs nlChar rest = true
      · rw [if_pos hnl]
        constructor
        · intro h
          obtain ⟨hsplit, hmem⟩ := matchCore_true _ h
          have e1 : rest = rest.dropLast ++ [nlChar] :=
            getLast?_split _ _ ((lastIs_iff _ _).mp hnl)
          refine ⟨rest.dropLast.dropLast, hmem, Or.inr ?_⟩
          have e3 : rest = rest.dropLast.dropLast ++ (['/', nlChar]) :=
            calc rest = rest.dropLast ++ [nlChar] := e1
              _ = (rest.dropLast.dropLast ++ (['/'])) ++ [nlChar] := by rw [← hsplit]
              _ = rest.dropLast.dropLast ++ (['/', nlChar]) := by
                  simp [List.append_assoc]
          exact congrArg (fun l => '/' :: l) e3
        · rintro ⟨mid, hmid, hcs | hcs⟩
          · have htail : rest = mid ++ (['/']) := List.tail_eq_of_cons_eq hcs
            exfalso
            rw [htail, lastIs_concat] at hnl
            exact absurd (of_decide_eq_true hnl) (by decide)
          · have htail : rest = mid ++ (['/', nlChar]) := List.tail_eq_of_cons_eq hcs
            have htail2 : rest = (mid ++ (['/'])) ++ ([nlChar]) := by
              rw [htail, List.append_assoc]
              rfl
            rw [htail2, List.dropLast_concat]
            exact matchCore_concat_slash mid hmid
      · rw [if_neg hnl]
        constructor
        · intro h
          obtain ⟨hsplit, hmem⟩ := matchCore_true _ h
          exact ⟨rest.dropLast, hmem, Or.inl (congrArg (fun l => '/' :: l) hsplit)⟩
        · rintro ⟨mid, hmid, hcs | hcs⟩
          · have htail : rest = mid ++ (['/']) := List.tail_eq_of_cons_eq hcs
            rw [htail]
            exact matchCore_concat_slash mid hmid
          · have htail : rest = mid ++ (['/', nlChar]) := List.tail_eq_of_cons_eq hcs
            exfalso
            apply hnl
            have htail2 : rest = (mid ++ (['/'])) ++ ([nlChar]) := by
              rw [htail, List.append_assoc]
              rfl
            rw [htail2, lastIs_concat]
            exact decide_eq_true rfl

theorem main_after_build_attempted (opts : OptionsM) (w : WorldM)
    (current : ManifestB) (cs : List CompilerM) :
    (main_after_build opts w current cs).build_attempted = true := by
  by_cases hcond : ¬ (scheduled_compilers opts.force cs).isEmpty = true ∨
      ¬ current.assets.all
        (fun pe => assets_in_sync_fn w.cached_manifest current pe.1) = true
  · by_cases htest : opts.test_needs_compile = true
    · unfold main_after_build
      rw [if_pos hcond, if_pos htest]
    · by_cases hint : w.interrupted = true
      · unfold main_after_build
        rw [if_pos hcond, if_neg htest, if_pos hint]
      · rcases hrc : run_compiles (scheduled_compilers opts.force cs) with ⟨files, oerr⟩
        cases oerr with
        | some err =>
          unfold main_after_build
          rw [if_pos hcond, if_neg htest, if_neg hint, hrc]
        | none =>
          unfold main_after_build
          rw [if_pos hcond, if_neg htest, if_neg hint, hrc]
  · unfold main_after_build
    rw [if_neg hcond]

theorem main_build_phase_attempted (opts : OptionsM) (w : WorldM) :
    (main_build_phase opts w).build_attempted = true := by
  unfold main_build_phase
  cases hb : w.build_result with
  | error e => rfl
  | ok pr =>
    obtain ⟨current, cs⟩ := pr
    exact main_after_build_attempted opts w current cs

/-- C9 counterexample: the one-character prefix `/` begins and ends with
a path separator, the template and static directories exist and the build
would succeed, yet `main` exits with status 1 before attempting any
build: `re.match(r'^/.*?/$', '/')` fails because the pattern requires two
slashes. -/
theorem url_pfx_rejects_root_slash_cex :
    (("/") : String).data.head? = some '/' ∧
    (("/") : String).data.getLast? = some '/' ∧
    main_run optsC9 wC9 =
      { exit := 1, manifest_written := false, files_written := [],
        build_attempted := false } := by
  exact ⟨by decide, by decide, by decide⟩

/-- C9 (amended): with existing template and static directories, `main`
aborts before any build is attempted exactly when the static URL prefix
fails `re.match(r'^/.*?/$', …)`: the prefix must be a slash, then a
newline-free middle, then a closing slash (a single trailing newline is
tolerated by `$`); in particular it needs at least two characters, so the
default prefix `/` is itself rejected. -/
theorem url_pfx_gate_characterization (opts : OptionsM) (w : WorldM)
    (htd : opts.template_dirs.all (fun d => w.dirs.contains d) = true)
    (hsd : w.dirs.contains opts.static_dir = true) :
    (main_run opts w).build_attempted = false ↔
      ¬ ∃ mid : List Char, nlChar ∉ mid ∧
        (opts.static_url_path.data = '/' :: (mid ++ (['/'])) ∨
         opts.static_url_path.data = '/' :: (mid ++ (['/', nlChar]))) := by
  have hdef : matchPrefixChars opts.static_url_path.data =
      match_static_url_pfx opts.static_url_path := rfl
  rw [← matchPrefixChars_iff, hdef]
  by_cases hm : match_static_url_pfx opts.static_url_path = true
  · have hatt : (main_run opts w).build_attempted = true := by
      unfold main_run
      rw [if_neg (not_not_intro hm), if_neg (not_not_intro htd),
        if_neg (not_not_intro hsd)]
      exact main_build_phase_attempted opts w
    rw [hatt]
    simp [hm]
  · have hatt : (main_run opts w).build_attempted = false := by
      unfold main_run
      rw [if_pos hm]
    rw [hatt]
    simp [hm]

/-- C9 witness: the two-slash prefix `/s/` passes the gate and the build
phase is reached. -/
theorem url_pfx_gate_characterization_witness :
    (main_run optsW9 wC9).build_attempted = true := by
  have h := url_pfx_gate_characterization optsW9 wC9 (by decide) (by decide)
  by_cases hfalse : (main_run optsW9 wC9).build_attempted = true
  · exact hfalse
  · have hf2 : (main_run optsW9 wC9).build_attempted = false :=
      Bool.not_eq_true _ ▸ hfalse
    exact absurd ⟨(['s']), by decide, Or.inl (by decide)⟩ (h.mp hf2)

end Assetman
